import Mathlib

/-!
Shallow embedding of the simp-lee/vector library (Go).

Source files embedded: vector.go (vector math and top-N ranking),
collection.go (collection CRUD, segmentation, query fan-out and merge),
document.go (result aggregation).

Modelling conventions, stated once here:
* Go float64 values are modelled as rationals; the claims under study are
  structural (membership, ordering, lengths, error paths) and do not depend
  on floating-point rounding.  math.Sqrt is modelled by sqrtQ, which is
  exact on perfect-square rationals; every concrete input used below is
  chosen so that the square root involved is exact.
* Go maps are modelled as association lists.  Go map iteration order is
  unspecified, so every theorem proved about map-backed data is
  order-insensitive (or explicitly about one fixed iteration order where
  the source result itself does not depend on it).
* Goroutine fan-outs in the source all write to disjoint pre-assigned
  slots (or accumulate under a mutex) and join before returning, so each
  is modelled by the equivalent sequential loop.
* Go slice indexing that would panic when out of range is modelled with a
  default value; callers in the source always index in range.
* Go error values are modelled by the VErr inductive; error messages that
  the claims do not inspect are kept as plain strings.
-/

namespace VectorLib

/-- Segment (document.go): a chunk of document text plus its embedding. -/
structure Segment where
  Text : String
  Embedding : List ℚ
deriving DecidableEq, Repr

/-- Document (document.go): ID, metadata, segments, full content.
Go metadata is map[string]interface classes; values are opaque to the
core (only handed to formatters), modelled as strings. -/
structure Document where
  ID : String
  Metadata : List (String × String)
  Segments : List Segment
  Content : String
deriving DecidableEq, Repr

/-- Error taxonomy of the library (each Go errors.New site mapped to a
constructor; generator errors are propagated verbatim). -/
inductive VErr where
  | validation : String → VErr
  | duplicateID : String → VErr
  | notFound : String → VErr
  | dimensionMismatch : VErr
  | zeroVector : VErr
  | allQueriesFailed : VErr
  | generator : String → VErr
deriving DecidableEq, Repr

/-- Similarity (vector.go): candidate identifier and score.
The Go zero value of this struct is ⟨"", 0⟩. -/
structure Similarity where
  ID : String
  Score : ℚ
deriving DecidableEq, Repr

/-- Result (collection.go): document, matched segment, similarity score.
The Go Segment pointer is modelled by the index of the segment inside the
document (distinct segments of a stored document are distinct pointers). -/
structure Result where
  document : Document
  segIdx : Nat
  similarity : ℚ
deriving DecidableEq, Repr

def isOkE {ε α : Type} : Except ε α → Bool
  | .ok _ => true
  | .error _ => false

def isErrE {ε α : Type} : Except ε α → Bool
  | .ok _ => false
  | .error _ => true

/-- Sum of squares of the entries (the accumulation loop in
normalizeVector, vector.go). -/
def sumSquares (v : List ℚ) : ℚ := (v.map (fun x => x * x)).sum

/-- math.Sqrt modelled over ℚ: exact whenever the argument is the square
of a rational (num*den a perfect square); elsewhere it floors.  No theorem
below depends on its value except at perfect squares. -/
def sqrtQ (x : ℚ) : ℚ := (Nat.sqrt (x.num.toNat * x.den) : ℚ) / (x.den : ℚ)

/-- normalizeVector (vector.go): divide by the Euclidean norm, error on
the zero vector. -/
def normalizeVector (v : List ℚ) : Except VErr (List ℚ) :=
  if sumSquares v = 0 then .error .zeroVector
  else .ok (v.map (fun x => x / sqrtQ (sumSquares v)))

/-- dotProduct (vector.go): error on length mismatch, otherwise the sum
of pairwise products. -/
def dotProduct (v1 v2 : List ℚ) : Except VErr ℚ :=
  if v1.length ≠ v2.length then .error .dimensionMismatch
  else .ok (List.zipWith (· * ·) v1 v2).sum

/-- Insert an element into a list sorted by the boolean relation le. -/
def insertIntoSorted {α : Type} (le : α → α → Bool) (a : α) : List α → List α
  | [] => [a]
  | b :: l => if le a b then a :: b :: l else b :: insertIntoSorted le a l

/-- Insertion sort by the boolean relation le.  Models sort.Slice from
the source: sort.Slice is unstable, so any comparator-respecting sort is
a valid model; all theorems below depend only on sortedness and on the
multiset of elements. -/
def sortByRel {α : Type} (le : α → α → Bool) : List α → List α
  | [] => []
  | a :: l => insertIntoSorted le a (sortByRel le l)

/-- Descending-score comparator for similarities
(sort.Slice less function in getTopNSimilarEmbeddings). -/
def simDescLe (a b : Similarity) : Bool := decide (b.Score ≤ a.Score)

/-- The scoring fan-out of getTopNSimilarEmbeddings (vector.go): one slot
per candidate, written independently.  A failed dot product leaves the
pre-allocated zero value ⟨"", 0⟩ in the slot (the goroutine logs and
returns without writing).  ids is consumed positionally. -/
def scoreAll (nq : List ℚ) : List (List ℚ) → List String → List Similarity
  | [], _ => []
  | emb :: es, ids =>
    (match dotProduct nq emb with
     | .ok s => { ID := ids.headD "", Score := s }
     | .error _ => { ID := "", Score := 0 }) :: scoreAll nq es ids.tail

/-- getTopNSimilarEmbeddings (vector.go): reject empty candidate lists
and query/first-candidate length mismatch, normalize the query, score all
candidates, sort by descending score, truncate to min(topN, count). -/
def getTopNSimilarEmbeddings (queryEmbedding : List ℚ) (embeddings : List (List ℚ))
    (ids : List String) (topN : Nat) : Except VErr (List Similarity) :=
  match embeddings with
  | [] => .error (.validation "no embeddings provided")
  | e0 :: _ =>
    if queryEmbedding.length ≠ e0.length then
      .error (.validation "query embedding length does not match embeddings")
    else
      match normalizeVector queryEmbedding with
      | .error e => .error e
      | .ok nq =>
        let sims := sortByRel simDescLe (scoreAll nq embeddings ids)
        let t := if topN > sims.length then sims.length else topN
        .ok (sims.take t)

/-! Composite candidate identifiers (GetTopNSimilarDocuments,
collection.go): built by Sprintf("%s_%d", docID, segmentIndex) and parsed
back by splitting at the last underscore and strconv.Atoi on the suffix.
Strings are modelled as rune lists (Go indexes here are byte offsets, but
every character involved in the format is ASCII). -/

/-- Decimal digit to character, as produced by Sprintf("%d"). -/
def digitToChar (d : Nat) : Char := Char.ofNat (48 + d)

/-- Decimal rendering of a non-negative integer (Sprintf("%d", n), most
significant digit first). -/
def natChars (n : Nat) : List Char :=
  if n = 0 then ['0'] else (Nat.digits 10 n).reverse.map digitToChar

/-- Value of a decimal digit character, none for non-digits. -/
def digitVal (c : Char) : Option Nat :=
  if '0' ≤ c ∧ c ≤ '9' then some (c.toNat - 48) else none

/-- Digit-accumulation loop of strconv.Atoi. -/
def parseDigitsAux (acc : Nat) : List Char → Option Nat
  | [] => some acc
  | c :: cs =>
    match digitVal c with
    | some d => parseDigitsAux (acc * 10 + d) cs
    | none => none

/-- strconv.Atoi: optional sign, then decimal digits; errors on the empty
string, a lone sign, or any non-digit.  (Machine-int overflow is not
modelled; segment indices are bounded by slice lengths.) -/
def atoi (s : List Char) : Option Int :=
  match s with
  | [] => none
  | c :: cs =>
    if c = '-' then
      if cs = [] then none else (parseDigitsAux 0 cs).map (fun n => -(n : Int))
    else if c = '+' then
      if cs = [] then none else (parseDigitsAux 0 cs).map (fun n => (n : Int))
    else (parseDigitsAux 0 (c :: cs)).map (fun n => (n : Int))

/-- strings.LastIndex for a single character: index of the last
occurrence, none when absent. -/
def lastIndexOf? (c : Char) : List Char → Option Nat
  | [] => none
  | x :: xs =>
    match lastIndexOf? c xs with
    | some j => some (j + 1)
    | none => if x = c then some 0 else none

/-- fmt.Sprintf("%s_%d", docID, segmentIndex). -/
def mkCompositeID (docID : List Char) (segmentIndex : Nat) : List Char :=
  docID ++ '_' :: natChars segmentIndex

/-- parseIDAndSegmentIndex helper (collection.go): split at the last
underscore, Atoi the suffix. -/
def parseIDAndSegmentIndex (id : List Char) : Option (List Char × Int) :=
  match lastIndexOf? '_' id with
  | none => none
  | some j =>
    match atoi (id.drop (j + 1)) with
    | none => none
    | some n => some (id.take j, n)

/-! Segmentation (splitText, collection.go).  Content is the rune slice
of the text; the loop starts at 0 and advances by ChunkSize -
ChunkOverlap, emitting runes[i : min(i+ChunkSize, len)) while i < len.
The collection constructor guarantees 0 < chunkSize and
chunkOverlap < chunkSize, hence a positive stride. -/

/-- The loop of splitText: chunk at i is runes[i : min(i+S, L)), stride
d.  (runes.drop i).take S is exactly that window. -/
def splitChunks (S d : Nat) (hd : 0 < d) (runes : List Char) (i : Nat) :
    List (List Char) :=
  if _h : i < runes.length then
    ((runes.drop i).take S) :: splitChunks S d hd runes (i + d)
  else []
termination_by runes.length - i
decreasing_by omega

/-- splitText with explicit parameters S = ChunkSize, O = ChunkOverlap. -/
def splitTextP (S O : Nat) (_hS : 0 < S) (hO : O < S) (runes : List Char) :
    List (List Char) :=
  splitChunks S (S - O) (by omega) runes 0

/-- Modelled from the spec formula: window start offsets
i = 0, S-O, 2(S-O), … while i < L (d = S-O; there are ceil(L/d) of them). -/
def specWindowStarts (d L : Nat) : List Nat :=
  (List.range ((L + d - 1) / d)).map (fun k => k * d)

/-! Collection (collection.go).  The guarded document map is modelled as
an association list; sync.RWMutex synchronization has no observable
effect on the sequential semantics of each operation.  The constructor
invariants 0 < chunkSize and chunkOverlap < chunkSize (validated by
NewCollection and never mutated afterwards by any operation) are carried
in the structure so that the segmentation stride is positive. -/
structure Collection where
  name : String
  metadata : List (String × String)
  documents : List (String × Document)
  embedFn : List String → String → Except String (List (List ℚ))
  embeddingDocumentType : String
  embeddingQueryType : String
  chunkSize : Nat
  chunkOverlap : Nat
  hsize : 0 < chunkSize
  hover : chunkOverlap < chunkSize

/-- Go map read m[k]. -/
def lookupDoc (m : List (String × Document)) (k : String) : Option Document :=
  (m.find? (fun p => p.1 == k)).map (fun p => p.2)

/-- splitText method (collection.go): split the rune slice of the text
into chunks of ChunkSize with stride ChunkSize - ChunkOverlap. -/
def Collection.splitText (c : Collection) (text : String) : List String :=
  (splitTextP c.chunkSize c.chunkOverlap c.hsize c.hover text.data).map
    (fun l => String.mk l)

/-- The normalize-and-attach loop shared by AddDocument and
EmbedDocuments: for each (segment text, raw embedding) pair, normalize
the embedding and build a Segment; stop at the first normalization
error. -/
def normalizeSegs : List (String × List ℚ) → Except VErr (List Segment)
  | [] => .ok []
  | (t, emb) :: rest =>
    match normalizeVector emb with
    | .error e => .error e
    | .ok nv =>
      match normalizeSegs rest with
      | .error e => .error e
      | .ok ss => .ok ({ Text := t, Embedding := nv } :: ss)

/-- Segment the content, call the embedding generator on the full batch
(document purpose tag), normalize every returned vector.  The Go loops
index segments[i] while ranging over embeddings; zip matches that
pairing (the generator contract returns one vector per input). -/
def computeSegments (c : Collection) (content : String) :
    Except VErr (List Segment) :=
  match c.embedFn (c.splitText content) c.embeddingDocumentType with
  | .error msg => .error (.generator msg)
  | .ok embeddings => normalizeSegs ((c.splitText content).zip embeddings)

/-- AddDocument (collection.go).  Returned pair: collection state after
the call and the error if any (nil on success).  All validations precede
the single map write. -/
def Collection.AddDocument (c : Collection) (doc : Document) :
    Collection × Option VErr :=
  if doc.ID = "" then (c, some (.validation "document ID is required"))
  else if (lookupDoc c.documents doc.ID).isSome then
    (c, some (.duplicateID doc.ID))
  else if doc.Content = "" then
    (c, some (.validation "document content is required"))
  else
    match computeSegments c doc.Content with
    | .error e => (c, some e)
    | .ok segs =>
      ({ c with documents :=
          c.documents ++ [(doc.ID, { doc with Segments := doc.Segments ++ segs })] },
        none)

/-- UpdateDocument (collection.go): replace the stored document
wholesale; no re-embedding. -/
def Collection.UpdateDocument (c : Collection) (doc : Document) :
    Collection × Option VErr :=
  if doc.ID = "" then (c, some (.validation "document ID is required"))
  else if (lookupDoc c.documents doc.ID).isNone then (c, some (.notFound doc.ID))
  else if doc.Content = "" then
    (c, some (.validation "document content is required"))
  else
    ({ c with documents :=
        c.documents.map (fun p => if p.1 == doc.ID then (p.1, doc) else p) },
      none)

/-- DeleteDocument (collection.go). -/
def Collection.DeleteDocument (c : Collection) (i : String) :
    Collection × Option VErr :=
  if (lookupDoc c.documents i).isSome then
    ({ c with documents := c.documents.filter (fun p => !(p.1 == i)) }, none)
  else (c, some (.notFound i))

/-- Length (collection.go). -/
def Collection.Length (c : Collection) : Nat := c.documents.length

/-- The per-document loop of EmbedDocuments: re-segment and re-embed the
current content and append the resulting segments to the document
(doc.Segments = append(doc.Segments, &segment)); stop at the first
document that fails, leaving it and the remaining documents untouched
(earlier documents keep their new segments — no rollback). -/
def embedDocsAux (c : Collection) :
    List (String × Document) → List (String × Document) × Option VErr
  | [] => ([], none)
  | (k, d) :: rest =>
    if d.Content = "" then
      ((k, d) :: rest, some (.validation "document content is required"))
    else
      match computeSegments c d.Content with
      | .error e => ((k, d) :: rest, some e)
      | .ok segs =>
        let r := embedDocsAux c rest
        ((k, { d with Segments := d.Segments ++ segs }) :: r.1, r.2)

/-- EmbedDocuments (collection.go). -/
def Collection.EmbedDocuments (c : Collection) : Collection × Option VErr :=
  ({ c with documents := (embedDocsAux c c.documents).1 },
    (embedDocsAux c c.documents).2)

/-- NewCollection (collection.go): eager validation of every
construction argument; no partial collection on failure. -/
def NewCollection (name embeddingDocumentType embeddingQueryType : String)
    (chunkSize chunkOverlap : Int)
    (embedFn? : Option (List String → String → Except String (List (List ℚ)))) :
    Except VErr Collection :=
  match embedFn? with
  | none => .error (.validation "embedding function is required")
  | some f =>
    if hcs : chunkSize ≤ 0 then
      .error (.validation "chunk size must be greater than zero")
    else if hco : chunkOverlap < 0 then
      .error (.validation "chunk overlap must be greater than or equal to zero")
    else if hlt : chunkOverlap ≥ chunkSize then
      .error (.validation "chunk overlap must be less than chunk size")
    else if name = "" then .error (.validation "collection name is required")
    else if embeddingDocumentType = "" then
      .error (.validation "embedding document type is required")
    else if embeddingQueryType = "" then
      .error (.validation "embedding query type is required")
    else
      .ok { name := name
            metadata := []
            documents := []
            embedFn := f
            embeddingDocumentType := embeddingDocumentType
            embeddingQueryType := embeddingQueryType
            chunkSize := chunkSize.toNat
            chunkOverlap := chunkOverlap.toNat
            hsize := by omega
            hover := by omega }

/-- Example embedding generator: one fixed vector per input text. -/
def egEmbedFn : List String → String → Except String (List (List ℚ)) :=
  fun texts _ => .ok (texts.map (fun _ => [1, 0]))

/-- Example collection (empty document map). -/
def egCollection : Collection :=
  { name := "test"
    metadata := []
    documents := []
    embedFn := egEmbedFn
    embeddingDocumentType := "docType"
    embeddingQueryType := "queryType"
    chunkSize := 2
    chunkOverlap := 0
    hsize := by omega
    hover := by omega }

/-- Example document. -/
def egDoc : Document :=
  { ID := "a", Metadata := [], Segments := [], Content := "ab" }

/-- The per-entry invariant of the document map: stored under its own
non-empty ID, with non-empty content. -/
def DocInv (c : Collection) : Prop :=
  ∀ p ∈ c.documents, p.2.ID = p.1 ∧ p.1 ≠ "" ∧ p.2.Content ≠ ""

/-- Example document that already carries a stored segment. -/
def egDocC1 : Document :=
  { ID := "a", Metadata := [],
    Segments := [{ Text := "old", Embedding := [1, 0] }], Content := "ab" }

/-- Example collection holding egDocC1. -/
def egCollectionC1 : Collection :=
  { egCollection with documents := [("a", egDocC1)] }

/-! GetTopNSimilarDocumentsForQueries (collection.go).  The per-query
fan-out calling GetTopNSimilarDocuments is abstracted by a search
function from query text to a per-query outcome; queryResults slots of
failed queries keep their zero value (nil result slice), so the merge
sees an empty list for them. -/

/-- Descending-similarity comparator for results (sort.Slice less
function of the merge). -/
def resDescLe (a b : Result) : Bool := decide (b.similarity ≤ a.similarity)

/-- Go map read uniqueResults[docID]. -/
def lookupRes (m : List (String × Result)) (k : String) : Option Result :=
  (m.find? (fun p => p.1 == k)).map (fun p => p.2)

/-- One step of the merge loop: insert the result under its document ID,
or keep the stored one unless the new similarity is strictly higher. -/
def upsertMax (m : List (String × Result)) (r : Result) : List (String × Result) :=
  match lookupRes m r.document.ID with
  | none => m ++ [(r.document.ID, r)]
  | some ex =>
    if ex.similarity < r.similarity then
      m.map (fun p => if p.1 == r.document.ID then (p.1, r) else p)
    else m

/-- The uniqueResults map after merging all surviving results in order. -/
def mergeResults (l : List Result) : List (String × Result) := l.foldl upsertMax []

/-- Flatten the per-query outcomes in query order; failed queries
contribute their zero-value (empty) slice. -/
def collectResults (outcomes : List (Except VErr (List Result))) : List Result :=
  outcomes.foldl (fun acc o => match o with | .ok rs => acc ++ rs | .error _ => acc) []

/-- GetTopNSimilarDocumentsForQueries (collection.go): run every query,
fail only when every query failed, merge survivors keyed by document ID
keeping the highest-similarity entry per document, sort descending,
truncate to topN. -/
def GetTopNSimilarDocumentsForQueries (search : String → Except VErr (List Result))
    (queries : List String) (topN : Nat) : Except VErr (List Result) :=
  let outcomes := queries.map search
  let errNum := (outcomes.filter (fun o => isErrE o)).length
  if errNum = queries.length then .error .allQueriesFailed
  else
    let merged := mergeResults (collectResults outcomes)
    let sortedR := sortByRel resDescLe (merged.map (fun p => p.2))
    .ok (if sortedR.length > topN then sortedR.take topN else sortedR)

/-- Combined invariant of the merge loop: after processing the results
in processed, the map has pairwise-distinct keys, each entry is stored
under its own document ID, each stored result is one of the processed
results and maximal among processed results for its document, and every
processed document has an entry. -/
def MergeInv (processed : List Result) (m : List (String × Result)) : Prop :=
  (m.map (fun p => p.1)).Nodup ∧
  (∀ p ∈ m, p.2.document.ID = p.1) ∧
  (∀ p ∈ m, p.2 ∈ processed) ∧
  (∀ p ∈ m, ∀ r' ∈ processed, r'.document.ID = p.1 →
    r'.similarity ≤ p.2.similarity) ∧
  (∀ r' ∈ processed, ∃ p ∈ m, p.1 = r'.document.ID)

/-- Example search function: a single fixed result per query. -/
def egSearch : String → Except VErr (List Result) :=
  fun _ => .ok [{ document := egDoc, segIdx := 0, similarity := 9 / 10 }]

/-! AggregateResults (document.go).  The repository sources carry two
revisions of this function; the current one (the revision the
specification describes, and the one whose tests exercise a segment that
appears in no result) iterates each document's stored Segments slice in
order and emits the text of every segment matched by some result.  Go
compares Segment pointers; distinct segments of a stored document are
distinct pointers, modelled by the segment index within the document. -/

/-- Whether some result matches the given document and segment position
(the inner scan over results with break; only the matched segment's text
is used, so the first match and any match agree). -/
def resultMatches (results : List Result) (docID : String) (i : Nat) : Bool :=
  results.any (fun r => r.document.ID == docID && r.segIdx == i)

/-- The content-building loop over the document's segments in stored
order: append the segment text (preceded by a newline separator when the
segment index is positive) whenever the segment is matched. -/
def contentFold (q : Nat → Bool) (l : List (Nat × Segment)) (acc : String) : String :=
  l.foldl (fun a p =>
    if q p.1 then a ++ (if p.1 > 0 then "\n" else "") ++ p.2.Text else a) acc

/-- Per-document concatenated content handed to the formatter. -/
def docContent (results : List Result) (docID : String) (segs : List Segment) :
    String :=
  contentFold (fun i => resultMatches results docID i) segs.enum ""

/-- The accumulation loop over results: on first sight of a document ID
record its document (metadata and segments) and similarity; afterwards
only raise the recorded similarity when a strictly higher one appears. -/
def accumDoc (acc : List (String × Document × ℚ)) (r : Result) :
    List (String × Document × ℚ) :=
  match acc.find? (fun p => p.1 == r.document.ID) with
  | none => acc ++ [(r.document.ID, r.document, r.similarity)]
  | some p0 =>
    if r.similarity > p0.2.2 then
      acc.map (fun p =>
        if p.1 == r.document.ID then (p.1, p.2.1, r.similarity) else p)
    else acc

/-- Descending comparator on recorded document similarities. -/
def docEntryDescLe (a b : String × Document × ℚ) : Bool := decide (b.2.2 ≤ a.2.2)

/-- AggregateResults (document.go): group results by document, order
documents by their best similarity descending, and for each document
format its metadata together with the matched segment texts concatenated
in stored-segment order. -/
def AggregateResults (results : List Result)
    (format : String → List (String × String) → String → String) : String :=
  let acc := results.foldl accumDoc []
  let sorted := sortByRel docEntryDescLe acc
  (sorted.map (fun e => format e.1 e.2.1.Metadata
    (docContent results e.1 e.2.1.Segments))).foldl (fun s t => s ++ t) ""

/-- Right-fold concatenation of a list of strings. -/
def strConcat (l : List String) : String := l.foldr (fun a b => a ++ b) ""

/-- Example document with two stored segments, for the C3 witness. -/
def egDocC3 : Document :=
  { ID := "d", Metadata := [],
    Segments := [{ Text := "t0", Embedding := [] },
                 { Text := "t1", Embedding := [] }],
    Content := "t0 t1" }

section SortLemmas

variable {α : Type} (le : α → α → Bool)

theorem insertIntoSorted_perm (a : α) (l : List α) :
    (insertIntoSorted le a l).Perm (a :: l) := by
  induction l with
  | nil => simp [insertIntoSorted]
  | cons b l ih =>
    by_cases h : le a b
    · simp [insertIntoSorted, h]
    · simp only [insertIntoSorted, h, if_neg, Bool.false_eq_true, if_false]
      exact ((ih.cons b).trans (List.Perm.swap a b l))

theorem sortByRel_perm (l : List α) : (sortByRel le l).Perm l := by
  induction l with
  | nil => simp [sortByRel]
  | cons a l ih =>
    exact (insertIntoSorted_perm le a (sortByRel le l)).trans (ih.cons a)

theorem insertIntoSorted_sorted
    (htot : ∀ a b, le a b = true ∨ le b a = true)
    (htrans : ∀ a b c, le a b = true → le b c = true → le a c = true)
    (a : α) (l : List α) (h : l.Pairwise (fun x y => le x y = true)) :
    (insertIntoSorted le a l).Pairwise (fun x y => le x y = true) := by
  induction l with
  | nil => simp [insertIntoSorted]
  | cons b l ih =>
    rcases List.pairwise_cons.mp h with ⟨hb, hl⟩
    by_cases hab : le a b = true
    · simp only [insertIntoSorted, hab, if_true]
      refine List.pairwise_cons.mpr ⟨?_, h⟩
      intro x hx
      rcases List.mem_cons.mp hx with rfl | hx
      · exact hab
      · exact htrans a b x hab (hb x hx)
    · simp only [insertIntoSorted, hab, Bool.false_eq_true, if_false]
      refine List.pairwise_cons.mpr ⟨?_, ih hl⟩
      intro x hx
      have hx' : x ∈ a :: l := (insertIntoSorted_perm le a l).mem_iff.mp hx
      rcases List.mem_cons.mp hx' with rfl | hx'
      · rcases htot x b with hc | hc
        · exact absurd hc hab
        · exact hc
      · exact hb x hx'

theorem sortByRel_sorted
    (htot : ∀ a b, le a b = true ∨ le b a = true)
    (htrans : ∀ a b c, le a b = true → le b c = true → le a c = true)
    (l : List α) :
    (sortByRel le l).Pairwise (fun x y => le x y = true) := by
  induction l with
  | nil => simp [sortByRel]
  | cons a l ih => exact insertIntoSorted_sorted le htot htrans a _ ih

end SortLemmas

theorem simDescLe_total : ∀ a b, simDescLe a b = true ∨ simDescLe b a = true := by
  intro a b
  simp only [simDescLe, decide_eq_true_eq]
  exact le_total b.Score a.Score

theorem simDescLe_trans : ∀ a b c, simDescLe a b = true → simDescLe b c = true →
    simDescLe a c = true := by
  intro a b c hab hbc
  simp only [simDescLe, decide_eq_true_eq] at *
  exact le_trans hbc hab

theorem scoreAll_length (nq : List ℚ) (es : List (List ℚ)) (ids : List String) :
    (scoreAll nq es ids).length = es.length := by
  induction es generalizing ids with
  | nil => simp [scoreAll]
  | cons e es ih => simp [scoreAll, ih]

/-- Every element of the scoring output is either a successfully computed
(id, score) pair for the candidate at some position, or the zero-value
placeholder left by a failed dot product. -/
theorem scoreAll_mem (nq : List ℚ) (es : List (List ℚ)) (ids : List String)
    (e : Similarity) (he : e ∈ scoreAll nq es ids) :
    ∃ i, ∃ h : i < es.length,
      (∃ s, dotProduct nq (es.get ⟨i, h⟩) = .ok s ∧ e = ⟨ids.getD i "", s⟩) ∨
      (isErrE (dotProduct nq (es.get ⟨i, h⟩)) = true ∧ e = ⟨"", 0⟩) := by
  induction es generalizing ids with
  | nil => simp [scoreAll] at he
  | cons emb es ih =>
    simp only [scoreAll, List.mem_cons] at he
    rcases he with he | he
    · refine ⟨0, by simp, ?_⟩
      cases hdp : dotProduct nq emb with
      | ok s =>
        refine Or.inl ⟨s, by simpa using hdp, ?_⟩
        rw [he, hdp]
        cases ids <;> simp [List.getD, List.headD]
      | error err =>
        refine Or.inr ⟨by simp [isErrE, hdp], ?_⟩
        rw [he, hdp]
    · rcases ih ids.tail he with ⟨i, hi, hcase⟩
      refine ⟨i + 1, by simpa using hi, ?_⟩
      have hids : ids.tail.getD i "" = ids.getD (i + 1) "" := by
        cases ids <;> simp [List.getD]
      simpa [hids] using hcase

theorem sortByRel_simDesc_sorted (l : List Similarity) :
    (sortByRel simDescLe l).Pairwise (fun a b => b.Score ≤ a.Score) := by
  have h := sortByRel_sorted simDescLe simDescLe_total simDescLe_trans l
  exact h.imp (fun hx => by simpa [simDescLe, decide_eq_true_eq] using hx)

/-- C7 — For every query vector, candidate list, and N:
the call errors when the candidate list is empty, when the query length
differs from the first candidate, or additionally when the query is the
zero vector (normalization failure — the amendment); in every remaining
case it returns exactly min(N, number of candidates) (id, score) entries
sorted by descending score. -/
theorem getTopN_contract (q : List ℚ) (es : List (List ℚ)) (ids : List String)
    (topN : Nat) :
    (es = [] → isErrE (getTopNSimilarEmbeddings q es ids topN) = true) ∧
    (∀ e0 es', es = e0 :: es' → q.length ≠ e0.length →
      isErrE (getTopNSimilarEmbeddings q es ids topN) = true) ∧
    (sumSquares q = 0 →
      isErrE (getTopNSimilarEmbeddings q es ids topN) = true) ∧
    (∀ e0 es', es = e0 :: es' → q.length = e0.length → sumSquares q ≠ 0 →
      ∃ out, getTopNSimilarEmbeddings q es ids topN = .ok out ∧
        out.length = min topN es.length ∧
        out.Pairwise (fun a b => b.Score ≤ a.Score)) := by
  refine ⟨?_, ?_, ?_, ?_⟩
  · rintro rfl
    simp [getTopNSimilarEmbeddings, isErrE]
  · rintro e0 es' rfl hne
    simp [getTopNSimilarEmbeddings, hne, isErrE]
  · intro hzero
    cases es with
    | nil => simp [getTopNSimilarEmbeddings, isErrE]
    | cons e0 es' =>
      by_cases hlen : q.length = e0.length
      · simp [getTopNSimilarEmbeddings, hlen, normalizeVector, hzero, isErrE]
      · simp [getTopNSimilarEmbeddings, hlen, isErrE]
  · rintro e0 es' rfl hlen hzero
    have hnorm : normalizeVector q =
        .ok (q.map (fun x => x / sqrtQ (sumSquares q))) := by
      simp [normalizeVector, hzero]
    have hEq : getTopNSimilarEmbeddings q (e0 :: es') ids topN =
        .ok ((sortByRel simDescLe
            (scoreAll (q.map (fun x => x / sqrtQ (sumSquares q))) (e0 :: es') ids)).take
          (if topN > (sortByRel simDescLe
              (scoreAll (q.map (fun x => x / sqrtQ (sumSquares q))) (e0 :: es') ids)).length
           then (sortByRel simDescLe
              (scoreAll (q.map (fun x => x / sqrtQ (sumSquares q))) (e0 :: es') ids)).length
           else topN)) := by
      simp only [getTopNSimilarEmbeddings, hlen, ne_eq, not_true_eq_false,
        if_false, hnorm]
    refine ⟨_, hEq, ?_, ?_⟩
    · have hslen : (sortByRel simDescLe
          (scoreAll (q.map (fun x => x / sqrtQ (sumSquares q))) (e0 :: es') ids)).length
          = (e0 :: es').length := by
        rw [(sortByRel_perm simDescLe _).length_eq, scoreAll_length]
      rw [List.length_take, hslen]
      split <;> omega
    · exact (sortByRel_simDesc_sorted _).sublist (List.take_sublist _ _)

/-- C7 witness: a concrete successful call returning exactly
min(5, 2) = 2 sorted entries. -/
theorem getTopN_contract_witness :
    ([(3 : ℚ), 4].length = [(1 : ℚ), 0].length) ∧ sumSquares [(3 : ℚ), 4] ≠ 0 ∧
    ∃ out, getTopNSimilarEmbeddings [(3 : ℚ), 4] [[1, 0], [0, 1]] ["a", "b"] 5 = .ok out ∧
      out.length = min 5 ([[(1 : ℚ), 0], [0, 1]] : List (List ℚ)).length ∧
      out.Pairwise (fun a b => b.Score ≤ a.Score) :=
  ⟨rfl, by norm_num [sumSquares],
    (getTopN_contract [(3 : ℚ), 4] [[1, 0], [0, 1]] ["a", "b"] 5).2.2.2
      [1, 0] [[0, 1]] rfl rfl (by norm_num [sumSquares])⟩

/-- C7 counterexample: query [0] against the non-empty, length-matching
candidate list [[1]] — the claim as stated predicts a successful result
list, but the source errors (zero-vector normalization failure). -/
theorem getTopN_zero_query_errors :
    ([[(1 : ℚ)]] : List (List ℚ)) ≠ [] ∧
    ([(0 : ℚ)].length = [(1 : ℚ)].length) ∧
    getTopNSimilarEmbeddings [(0 : ℚ)] [[1]] ["a"] 1 = .error .zeroVector := by
  refine ⟨by simp, rfl, ?_⟩
  norm_num [getTopNSimilarEmbeddings, normalizeVector, sumSquares]

/-- C2 (amended) — every entry of a successful top-N result is either an
(id, score) pair actually computed for the candidate at some position, or
the zero-value placeholder ⟨"", 0⟩ occupying the pre-allocated slot of a
candidate whose dot product failed; failed candidates are not removed
from the result, their slot survives sorting and truncation. -/
theorem getTopN_failed_slot_placeholder (q : List ℚ) (es : List (List ℚ))
    (ids : List String) (topN : Nat) (out : List Similarity)
    (hok : getTopNSimilarEmbeddings q es ids topN = .ok out) :
    ∃ nq, normalizeVector q = .ok nq ∧
      ∀ e ∈ out,
        (∃ i, ∃ h : i < es.length, ∃ s,
          dotProduct nq (es.get ⟨i, h⟩) = .ok s ∧ e = ⟨ids.getD i "", s⟩) ∨
        (∃ i, ∃ h : i < es.length,
          isErrE (dotProduct nq (es.get ⟨i, h⟩)) = true ∧ e = ⟨"", 0⟩) := by
  cases es with
  | nil => simp [getTopNSimilarEmbeddings] at hok
  | cons e0 es' =>
    by_cases hlen : q.length = e0.length
    · cases hnorm : normalizeVector q with
      | error err =>
        simp [getTopNSimilarEmbeddings, hlen, hnorm] at hok
      | ok nq =>
        refine ⟨nq, rfl, ?_⟩
        intro e he
        simp only [getTopNSimilarEmbeddings, hlen, ne_eq, not_true_eq_false,
          if_false, hnorm, Except.ok.injEq] at hok
        have hmem : e ∈ sortByRel simDescLe (scoreAll nq (e0 :: es') ids) := by
          subst hok
          exact (List.take_sublist _ _).mem he
        have hmem' : e ∈ scoreAll nq (e0 :: es') ids :=
          (sortByRel_perm simDescLe _).mem_iff.mp hmem
        rcases scoreAll_mem nq (e0 :: es') ids e hmem' with ⟨i, hi, hcase⟩
        rcases hcase with ⟨s, hdp, heq⟩ | ⟨herr, heq⟩
        · exact Or.inl ⟨i, hi, s, hdp, heq⟩
        · exact Or.inr ⟨i, hi, herr, heq⟩
    · simp [getTopNSimilarEmbeddings, hlen] at hok

/-- Concrete evaluation: with the second candidate of mismatched
dimension, the result still carries its zero-value slot. -/
theorem getTopN_mismatch_eval :
    getTopNSimilarEmbeddings [(1 : ℚ), 0] [[1, 0], [1, 0, 0]] ["a", "b"] 2 =
      .ok [⟨"a", 1⟩, ⟨"", 0⟩] := by
  have h1 : sqrtQ 1 = 1 := by norm_num [sqrtQ]
  norm_num [getTopNSimilarEmbeddings, normalizeVector, sumSquares, h1, scoreAll,
    dotProduct, sortByRel, insertIntoSorted, simDescLe]

/-- C2 (amended) witness: concrete call in which the second candidate has
mismatched dimension; the output keeps its zero-value placeholder. -/
theorem getTopN_failed_slot_placeholder_witness :
    getTopNSimilarEmbeddings [(1 : ℚ), 0] [[1, 0], [1, 0, 0]] ["a", "b"] 2 =
      .ok [⟨"a", 1⟩, ⟨"", 0⟩] ∧
    ∃ nq, normalizeVector [(1 : ℚ), 0] = .ok nq ∧
      ∀ e ∈ [(⟨"a", 1⟩ : Similarity), ⟨"", 0⟩],
        (∃ i, ∃ h : i < ([[(1 : ℚ), 0], [1, 0, 0]] : List (List ℚ)).length, ∃ s,
          dotProduct nq (([[(1 : ℚ), 0], [1, 0, 0]] : List (List ℚ)).get ⟨i, h⟩) = .ok s ∧
            e = ⟨(["a", "b"] : List String).getD i "", s⟩) ∨
        (∃ i, ∃ h : i < ([[(1 : ℚ), 0], [1, 0, 0]] : List (List ℚ)).length,
          isErrE (dotProduct nq (([[(1 : ℚ), 0], [1, 0, 0]] : List (List ℚ)).get ⟨i, h⟩)) = true ∧
            e = ⟨"", 0⟩) :=
  ⟨getTopN_mismatch_eval,
    getTopN_failed_slot_placeholder [(1 : ℚ), 0] [[1, 0], [1, 0, 0]] ["a", "b"] 2
      [⟨"a", 1⟩, ⟨"", 0⟩] getTopN_mismatch_eval⟩

/-- C2 counterexample: with candidates [[1,0],[1,0,0]] the second dot
product fails mid-batch, yet the returned list still contains the
zero-value entry ⟨"", 0⟩ for it — an (id, score) pair never computed for
any candidate (the id "" is not among the candidate ids). -/
theorem getTopN_failed_candidate_not_excluded :
    getTopNSimilarEmbeddings [(1 : ℚ), 0] [[1, 0], [1, 0, 0]] ["a", "b"] 2 =
      .ok [⟨"a", 1⟩, ⟨"", 0⟩] ∧
    (⟨"", 0⟩ : Similarity) ∈ [(⟨"a", (1 : ℚ)⟩ : Similarity), ⟨"", 0⟩] ∧
    "" ∉ (["a", "b"] : List String) := by
  refine ⟨getTopN_mismatch_eval, by simp, by simp⟩

theorem lastIndexOf?_eq_none (c : Char) (l : List Char) (h : c ∉ l) :
    lastIndexOf? c l = none := by
  induction l with
  | nil => rfl
  | cons x xs ih =>
    have hx : x ≠ c := fun hxc => h (hxc ▸ List.mem_cons_self x xs)
    have hxs : c ∉ xs := fun hm => h (List.mem_cons_of_mem x hm)
    simp [lastIndexOf?, ih hxs, hx]

theorem lastIndexOf?_append (l1 l2 : List Char) (c : Char) (h : c ∉ l2) :
    lastIndexOf? c (l1 ++ c :: l2) = some l1.length := by
  induction l1 with
  | nil => simp [lastIndexOf?, lastIndexOf?_eq_none c l2 h]
  | cons x l1 ih => simp [lastIndexOf?, ih]

theorem digitToChar_spec (d : Nat) (h : d < 10) :
    digitVal (digitToChar d) = some d ∧ digitToChar d ≠ '_' ∧
    digitToChar d ≠ '-' ∧ digitToChar d ≠ '+' := by
  interval_cases d <;> exact ⟨by decide, by decide, by decide, by decide⟩

theorem parseDigitsAux_map (ds : List Nat) (h : ∀ d ∈ ds, d < 10) (acc : Nat) :
    parseDigitsAux acc (ds.map digitToChar) =
      some (ds.foldl (fun a d => a * 10 + d) acc) := by
  induction ds generalizing acc with
  | nil => rfl
  | cons d ds ih =>
    have hd := (digitToChar_spec d (h d (List.mem_cons_self d ds))).1
    have hds : ∀ x ∈ ds, x < 10 := fun x hx => h x (List.mem_cons_of_mem d hx)
    simp [parseDigitsAux, hd, ih hds]

theorem foldr_eq_ofDigits (L : List Nat) :
    L.foldr (fun d a => a * 10 + d) 0 = Nat.ofDigits 10 L := by
  induction L with
  | nil => simp [Nat.ofDigits]
  | cons d L ih =>
    rw [List.foldr_cons, ih, Nat.ofDigits_cons]
    ring

theorem atoi_natChars (n : Nat) : atoi (natChars n) = some (n : Int) := by
  by_cases h0 : n = 0
  · subst h0
    decide
  · obtain ⟨d, ds', hds⟩ : ∃ d ds', (Nat.digits 10 n).reverse = d :: ds' := by
      have hne : (Nat.digits 10 n).reverse ≠ [] := by
        simpa using (Nat.digits_ne_nil_iff_ne_zero.mpr h0)
      cases hrev : (Nat.digits 10 n).reverse with
      | nil => exact absurd hrev hne
      | cons d ds' => exact ⟨d, ds', rfl⟩
    have hlt : ∀ x ∈ (Nat.digits 10 n).reverse, x < 10 := by
      intro x hx
      exact Nat.digits_lt_base (by norm_num) (List.mem_reverse.mp hx)
    have hd10 : d < 10 := hlt d (hds ▸ List.mem_cons_self d ds')
    have hspec := digitToChar_spec d hd10
    have hfold : (Nat.digits 10 n).reverse.foldl (fun a x => a * 10 + x) 0 = n := by
      rw [List.foldl_reverse]
      calc (Nat.digits 10 n).foldr (fun x y => y * 10 + x) 0
          = (Nat.digits 10 n).foldr (fun d a => a * 10 + d) 0 := rfl
        _ = Nat.ofDigits 10 (Nat.digits 10 n) := foldr_eq_ofDigits _
        _ = n := Nat.ofDigits_digits 10 n
    have hparse : parseDigitsAux 0 ((d :: ds').map digitToChar) = some n := by
      rw [parseDigitsAux_map (d :: ds') (hds ▸ hlt) 0, ← hds, hfold]
    have hnc : natChars n = (d :: ds').map digitToChar := by
      simp [natChars, h0, hds]
    rw [hnc]
    simp only [List.map_cons, atoi, hspec.2.2.1, if_false, hspec.2.2.2, if_false]
    rw [show digitToChar d :: ds'.map digitToChar = (d :: ds').map digitToChar from rfl,
      hparse]
    rfl

/-- C4 — composing a candidate identifier "<docID>_<i>" and parsing it
back by splitting at the last underscore recovers exactly (docID, i),
for every docID (underscores allowed) and every segment index i. -/
theorem compositeID_roundtrip (docID : List Char) (i : Nat) :
    parseIDAndSegmentIndex (mkCompositeID docID i) = some (docID, (i : Int)) := by
  have hnu : '_' ∉ natChars i := by
    intro hmem
    by_cases h0 : i = 0
    · subst h0
      simp [natChars] at hmem
    · simp only [natChars, h0, if_false] at hmem
      rcases List.mem_map.mp hmem with ⟨d, hd, hdc⟩
      have hd10 : d < 10 :=
        Nat.digits_lt_base (by norm_num) (List.mem_reverse.mp hd)
      exact (digitToChar_spec d hd10).2.1 hdc
  have hli : lastIndexOf? '_' (docID ++ '_' :: natChars i) = some docID.length :=
    lastIndexOf?_append docID (natChars i) '_' hnu
  have hdrop : (docID ++ '_' :: natChars i).drop (docID.length + 1) = natChars i := by
    have hsplit : docID ++ '_' :: natChars i = (docID ++ ['_']) ++ natChars i := by
      simp
    have hlen : (docID ++ ['_']).length = docID.length + 1 := by simp
    rw [hsplit, ← hlen, List.drop_left]
  have htake : (docID ++ '_' :: natChars i).take docID.length = docID :=
    List.take_left docID _
  simp only [parseIDAndSegmentIndex, mkCompositeID, hli, hdrop, atoi_natChars,
    htake]

theorem cdiv_gt_of_mul_lt {d L k : Nat} (hd : 0 < d) (h : k * d < L) :
    k < (L + d - 1) / d := by
  have : k + 1 ≤ (L + d - 1) / d := by
    apply (Nat.le_div_iff_mul_le hd).mpr
    rw [Nat.succ_mul]
    omega
  omega

theorem cdiv_le_of_le_mul {d L k : Nat} (hd : 0 < d) (h : L ≤ k * d) :
    (L + d - 1) / d ≤ k := by
  by_contra hc
  push_neg at hc
  have : (k + 1) * d ≤ L + d - 1 := (Nat.le_div_iff_mul_le hd).mp hc
  rw [Nat.succ_mul] at this
  omega

theorem splitChunks_from_mul_aux (S d : Nat) (hd : 0 < d) (runes : List Char) :
    ∀ n k, runes.length - k * d ≤ n →
      splitChunks S d hd runes (k * d) =
        (((List.range ((runes.length + d - 1) / d)).map (fun t => t * d)).drop k).map
          (fun i => (runes.drop i).take S) := by
  intro n
  induction n with
  | zero =>
    intro k hk
    have hge : runes.length ≤ k * d := by omega
    rw [splitChunks, dif_neg (by omega)]
    rw [List.drop_eq_nil_of_le, List.map_nil]
    rw [List.length_map, List.length_range]
    exact cdiv_le_of_le_mul hd hge
  | succ n ih =>
    intro k hk
    by_cases h : k * d < runes.length
    · rw [splitChunks, dif_pos h]
      have hstep : k * d + d = (k + 1) * d := by rw [Nat.succ_mul]
      have hrec := ih (k + 1) (by rw [Nat.succ_mul]; omega)
      rw [hstep, hrec]
      have hklt : k < ((List.range ((runes.length + d - 1) / d)).map (fun t => t * d)).length := by
        rw [List.length_map, List.length_range]
        exact cdiv_gt_of_mul_lt hd h
      rw [List.drop_eq_getElem_cons hklt, List.map_cons]
      congr 1
      rw [List.getElem_map, List.getElem_range]
    · rw [splitChunks, dif_neg h]
      rw [List.drop_eq_nil_of_le, List.map_nil]
      rw [List.length_map, List.length_range]
      exact cdiv_le_of_le_mul hd (by omega)

/-- C6 — splitText produces exactly the windows [i, min(i+S, L)) for
i = 0, S-O, 2(S-O), … while i < L, in left-to-right order; every code
point index j < L is covered by at least one window; and a 250-code-point
content with S = 100, O = 10 yields exactly the 3 windows starting at
offsets 0, 90, 180. -/
theorem splitText_windows (S O : Nat) (hS : 0 < S) (hO : O < S)
    (runes : List Char) :
    splitTextP S O hS hO runes =
      (specWindowStarts (S - O) runes.length).map (fun i => (runes.drop i).take S) ∧
    (∀ j < runes.length, ∃ i ∈ specWindowStarts (S - O) runes.length,
      i ≤ j ∧ j < i + S) ∧
    (runes.length = 250 → S = 100 → O = 10 →
      splitTextP S O hS hO runes =
        [(runes.drop 0).take S, (runes.drop 90).take S, (runes.drop 180).take S]) := by
  have hd : 0 < S - O := by omega
  have hmain : splitTextP S O hS hO runes =
      (specWindowStarts (S - O) runes.length).map (fun i => (runes.drop i).take S) := by
    have h0 := splitChunks_from_mul_aux S (S - O) hd runes runes.length 0 (by omega)
    simpa [splitTextP, specWindowStarts] using h0
  refine ⟨hmain, ?_, ?_⟩
  · intro j hj
    refine ⟨(j / (S - O)) * (S - O), ?_, Nat.div_mul_le_self j (S - O), ?_⟩
    · have hkd : (j / (S - O)) * (S - O) ≤ j := Nat.div_mul_le_self j (S - O)
      have hk : j / (S - O) < (runes.length + (S - O) - 1) / (S - O) :=
        cdiv_gt_of_mul_lt hd (by omega)
      exact List.mem_map.mpr ⟨j / (S - O), List.mem_range.mpr hk, rfl⟩
    · have hdm := Nat.div_add_mod j (S - O)
      have hmlt : j % (S - O) < S - O := Nat.mod_lt j hd
      have : j < (j / (S - O)) * (S - O) + (S - O) := by
        rw [Nat.mul_comm]
        omega
      omega
  · intro h250 hS100 hO10
    subst hS100
    subst hO10
    rw [hmain, h250]
    have hspec : specWindowStarts (100 - 10) 250 = [0, 90, 180] := by decide
    rw [hspec]
    simp

/-- C6 witness: the concrete 250-character content. -/
theorem splitText_windows_witness :
    (0 < 100) ∧ (10 < 100) ∧ (List.replicate 250 'a').length = 250 ∧
    splitTextP 100 10 (by omega) (by omega) (List.replicate 250 'a') =
      [((List.replicate 250 'a').drop 0).take 100,
       ((List.replicate 250 'a').drop 90).take 100,
       ((List.replicate 250 'a').drop 180).take 100] :=
  ⟨by omega, by omega, List.length_replicate 250 'a',
    (splitText_windows 100 10 (by omega) (by omega) (List.replicate 250 'a')).2.2
      (List.length_replicate 250 'a') rfl rfl⟩

/-- C8 — whenever AddDocument returns an error (empty ID, duplicate ID,
empty content, embedding-generator error, or zero-vector normalization
failure), the document map is unchanged: nothing is inserted and Length
is the same as before the call. -/
theorem addDocument_error_unchanged (c : Collection) (doc : Document)
    (e : VErr) (h : (c.AddDocument doc).2 = some e) :
    (c.AddDocument doc).1.documents = c.documents ∧
    (c.AddDocument doc).1.Length = c.Length := by
  by_cases h1 : doc.ID = ""
  · simp [Collection.AddDocument, h1, Collection.Length]
  · by_cases h2 : (lookupDoc c.documents doc.ID).isSome
    · simp [Collection.AddDocument, h1, h2, Collection.Length]
    · by_cases h3 : doc.Content = ""
      · simp [Collection.AddDocument, h1, h2, h3, Collection.Length]
      · cases hcs : computeSegments c doc.Content with
        | error er =>
          simp [Collection.AddDocument, h1, h2, h3, hcs, Collection.Length]
        | ok segs =>
          exfalso
          simp [Collection.AddDocument, h1, h2, h3, hcs] at h

/-- C8 witness: adding a document with an empty ID fails and the map is
untouched. -/
theorem addDocument_error_unchanged_witness :
    (egCollection.AddDocument { egDoc with ID := "" }).2 =
      some (.validation "document ID is required") ∧
    (egCollection.AddDocument { egDoc with ID := "" }).1.documents =
      egCollection.documents :=
  ⟨rfl,
    (addDocument_error_unchanged egCollection { egDoc with ID := "" }
      (.validation "document ID is required") rfl).1⟩

theorem embedDocsAux_entry_shape (c : Collection)
    (l : List (String × Document)) :
    ∀ p ∈ (embedDocsAux c l).1, ∃ q ∈ l, p.1 = q.1 ∧ p.2.ID = q.2.ID ∧
      p.2.Content = q.2.Content := by
  induction l with
  | nil =>
    intro p hp
    simp [embedDocsAux] at hp
  | cons kd rest ih =>
    intro p hp
    obtain ⟨k, d⟩ := kd
    by_cases hc : d.Content = ""
    · simp only [embedDocsAux, hc, if_pos] at hp
      exact ⟨p, hp, rfl, rfl, rfl⟩
    · simp only [embedDocsAux, hc, if_neg, Bool.false_eq_true, if_false] at hp
      cases hcs : computeSegments c d.Content with
      | error er =>
        rw [hcs] at hp
        exact ⟨p, hp, rfl, rfl, rfl⟩
      | ok segs =>
        rw [hcs] at hp
        simp only [List.mem_cons] at hp
        rcases hp with rfl | hp
        · exact ⟨(k, d), List.mem_cons_self _ _, rfl, rfl, rfl⟩
        · rcases ih p hp with ⟨q, hq, h1, h2, h3⟩
          exact ⟨q, List.mem_cons_of_mem _ hq, h1, h2, h3⟩

/-- C10 — every document in the map is stored under its own non-empty ID
with non-empty content: the invariant holds for the empty collection
produced by NewCollection and is preserved by AddDocument,
UpdateDocument, DeleteDocument and EmbedDocuments (success or failure). -/
theorem collection_documents_invariant :
    (∀ name dt qt cs co f c, NewCollection name dt qt cs co f = .ok c → DocInv c) ∧
    (∀ c doc, DocInv c → DocInv (c.AddDocument doc).1) ∧
    (∀ c doc, DocInv c → DocInv (c.UpdateDocument doc).1) ∧
    (∀ c i, DocInv c → DocInv (c.DeleteDocument i).1) ∧
    (∀ c, DocInv c → DocInv c.EmbedDocuments.1) := by
  refine ⟨?_, ?_, ?_, ?_, ?_⟩
  · intro name dt qt cs co f c h
    cases f with
    | none => simp [NewCollection] at h
    | some f =>
      simp only [NewCollection] at h
      repeat' split at h
      all_goals simp_all
      intro p hp
      rw [← h] at hp
      simp at hp
  · intro c doc hInv
    by_cases h1 : doc.ID = ""
    · simpa [Collection.AddDocument, h1] using hInv
    · by_cases h2 : (lookupDoc c.documents doc.ID).isSome
      · simpa [Collection.AddDocument, h1, h2] using hInv
      · by_cases h3 : doc.Content = ""
        · simpa [Collection.AddDocument, h1, h2, h3] using hInv
        · cases hcs : computeSegments c doc.Content with
          | error er =>
            simpa [Collection.AddDocument, h1, h2, h3, hcs] using hInv
          | ok segs =>
            intro p hp
            have hdocs : (c.AddDocument doc).1.documents = c.documents ++
                [(doc.ID, { doc with Segments := doc.Segments ++ segs })] := by
              simp [Collection.AddDocument, h1, h2, h3, hcs]
            rw [hdocs] at hp
            rcases List.mem_append.mp hp with hp | hp
            · exact hInv p hp
            · have hpe := List.mem_singleton.mp hp
              subst hpe
              exact ⟨rfl, h1, h3⟩
  · intro c doc hInv
    by_cases h1 : doc.ID = ""
    · simpa [Collection.UpdateDocument, h1] using hInv
    · by_cases h2 : (lookupDoc c.documents doc.ID).isNone
      · simpa [Collection.UpdateDocument, h1, h2] using hInv
      · by_cases h3 : doc.Content = ""
        · simpa [Collection.UpdateDocument, h1, h2, h3] using hInv
        · intro p hp
          have hdocs : (c.UpdateDocument doc).1.documents =
              c.documents.map (fun p => if p.1 == doc.ID then (p.1, doc) else p) := by
            simp [Collection.UpdateDocument, h1, h2, h3]
          rw [hdocs] at hp
          rcases List.mem_map.mp hp with ⟨q, hq, hpq⟩
          by_cases hk : q.1 == doc.ID
          · rw [if_pos hk] at hpq
            have hkeq : q.1 = doc.ID := by simpa using hk
            subst hpq
            exact ⟨hkeq.symm, (hInv q hq).2.1, h3⟩
          · rw [if_neg hk] at hpq
            subst hpq
            exact hInv q hq
  · intro c i hInv
    by_cases h1 : (lookupDoc c.documents i).isSome
    · intro p hp
      simp only [Collection.DeleteDocument, h1, if_pos, List.mem_filter] at hp
      exact hInv p hp.1
    · simpa [Collection.DeleteDocument, h1] using hInv
  · intro c hInv p hp
    have hp' : p ∈ (embedDocsAux c c.documents).1 := by
      simpa [Collection.EmbedDocuments] using hp
    rcases embedDocsAux_entry_shape c c.documents p hp' with ⟨q, hq, h1, h2, h3⟩
    rcases hInv q hq with ⟨g1, g2, g3⟩
    exact ⟨by rw [h2, h1, g1], by rw [h1]; exact g2, by rw [h3]; exact g3⟩

/-- C10 witness: the invariant for a concrete collection and its
preservation through concrete operations. -/
theorem collection_documents_invariant_witness :
    DocInv egCollection ∧ DocInv (egCollection.AddDocument egDoc).1 ∧
    DocInv egCollection.EmbedDocuments.1 := by
  have inv0 : DocInv egCollection := by
    intro p hp
    simp [egCollection] at hp
  exact ⟨inv0, collection_documents_invariant.2.1 egCollection egDoc inv0,
    collection_documents_invariant.2.2.2.2 egCollection inv0⟩

theorem embedDocsAux_appends (c : Collection) (l : List (String × Document))
    (hok : (embedDocsAux c l).2 = none) :
    ∀ p ∈ l, ∃ segs, computeSegments c p.2.Content = .ok segs ∧
      (p.1, { p.2 with Segments := p.2.Segments ++ segs }) ∈ (embedDocsAux c l).1 := by
  induction l with
  | nil =>
    intro p hp
    simp at hp
  | cons kd rest ih =>
    intro p hp
    obtain ⟨k, d⟩ := kd
    by_cases hc : d.Content = ""
    · exfalso
      simp [embedDocsAux, hc] at hok
    · cases hcs : computeSegments c d.Content with
      | error er =>
        exfalso
        simp [embedDocsAux, hc, hcs] at hok
      | ok segs =>
        have hunfold : embedDocsAux c ((k, d) :: rest) =
            ((k, { d with Segments := d.Segments ++ segs }) ::
              (embedDocsAux c rest).1, (embedDocsAux c rest).2) := by
          simp [embedDocsAux, hc, hcs]
        have hok' : (embedDocsAux c rest).2 = none := by
          rw [hunfold] at hok
          exact hok
        rcases List.mem_cons.mp hp with rfl | hp
        · exact ⟨segs, hcs, by rw [hunfold]; exact List.mem_cons_self _ _⟩
        · rcases ih hok' p hp with ⟨segs', hcs', hmem⟩
          exact ⟨segs', hcs', by rw [hunfold]; exact List.mem_cons_of_mem _ hmem⟩

/-- C1 (amended) — a successful EmbedDocuments call leaves every stored
document holding its previous segments followed by the segments produced
by re-segmenting and re-embedding its current content: the new segments
are appended after the old ones, which are retained, not replaced. -/
theorem embedDocuments_appends_segments (c : Collection)
    (hok : c.EmbedDocuments.2 = none) :
    ∀ p ∈ c.documents, ∃ segs, computeSegments c p.2.Content = .ok segs ∧
      (p.1, { p.2 with Segments := p.2.Segments ++ segs }) ∈
        c.EmbedDocuments.1.documents := by
  intro p hp
  have hok' : (embedDocsAux c c.documents).2 = none := hok
  rcases embedDocsAux_appends c c.documents hok' p hp with ⟨segs, hcs, hmem⟩
  exact ⟨segs, hcs, hmem⟩

/-- Concrete segmentation: the two-rune content of egDocC1 yields one
chunk of size two. -/
theorem egSplit_eval : egCollectionC1.splitText "ab" = ["ab"] := by
  have hchunks : splitChunks 2 (2 - 0) (by omega) "ab".data 0 = [['a', 'b']] := by
    rw [splitChunks, dif_pos (by decide), splitChunks, dif_neg (by decide)]
    rfl
  simp only [Collection.splitText, splitTextP, egCollectionC1, egCollection,
    hchunks]
  rfl

/-- Concrete re-embedding of the content of egDocC1: one new segment. -/
theorem egComputeSegments_eval :
    computeSegments egCollectionC1 "ab" =
      .ok [{ Text := "ab", Embedding := [1, 0] }] := by
  have h1 : sqrtQ 1 = 1 := by norm_num [sqrtQ]
  have hfn : egCollectionC1.embedFn = egEmbedFn := rfl
  simp only [computeSegments, egSplit_eval, hfn, egEmbedFn]
  norm_num [normalizeSegs, normalizeVector, sumSquares, h1]

/-- Concrete EmbedDocuments run: the call succeeds and the document ends
up with the old segment retained and the re-embedded one appended. -/
theorem egEmbedDocuments_eval :
    egCollectionC1.EmbedDocuments.2 = none ∧
    egCollectionC1.EmbedDocuments.1.documents =
      [("a", { egDocC1 with Segments :=
        [{ Text := "old", Embedding := [1, 0] },
         { Text := "ab", Embedding := [1, 0] }] })] := by
  constructor
  · simp [Collection.EmbedDocuments, embedDocsAux, egDocC1, egComputeSegments_eval]
  · simp [Collection.EmbedDocuments, embedDocsAux, egDocC1, egComputeSegments_eval]

/-- C1 counterexample: on a collection whose single document already has
one stored segment, EmbedDocuments succeeds and re-embedding its content
produces exactly one segment, yet the document afterwards holds two
segments (old followed by new) — not "exactly the re-computed segments":
the previously stored segment is retained, not overwritten. -/
theorem embedDocuments_does_not_overwrite :
    computeSegments egCollectionC1 egDocC1.Content =
      .ok [{ Text := "ab", Embedding := [1, 0] }] ∧
    egCollectionC1.EmbedDocuments.2 = none ∧
    egCollectionC1.EmbedDocuments.1.documents.map (fun p => p.2.Segments) =
      [[{ Text := "old", Embedding := [1, 0] },
        { Text := "ab", Embedding := [1, 0] }]] ∧
    ([[{ Text := "old", Embedding := [(1 : ℚ), 0] },
       { Text := "ab", Embedding := [1, 0] }]] : List (List Segment)) ≠
      [[{ Text := "ab", Embedding := [1, 0] }]] := by
  refine ⟨egComputeSegments_eval, egEmbedDocuments_eval.1, ?_, by simp⟩
  rw [egEmbedDocuments_eval.2]
  simp [egDocC1]

/-- C1 (amended) witness: the amended theorem applied to the concrete
collection above. -/
theorem embedDocuments_appends_segments_witness :
    (("a", egDocC1) ∈ egCollectionC1.documents) ∧
    ∃ segs, computeSegments egCollectionC1 egDocC1.Content = .ok segs ∧
      ("a", { egDocC1 with Segments := egDocC1.Segments ++ segs }) ∈
        egCollectionC1.EmbedDocuments.1.documents := by
  have hmem : ("a", egDocC1) ∈ egCollectionC1.documents := by
    simp [egCollectionC1]
  exact ⟨hmem, embedDocuments_appends_segments egCollectionC1
    egEmbedDocuments_eval.1 ("a", egDocC1) hmem⟩

theorem resDescLe_total : ∀ a b, resDescLe a b = true ∨ resDescLe b a = true := by
  intro a b
  simp only [resDescLe, decide_eq_true_eq]
  exact le_total b.similarity a.similarity

theorem resDescLe_trans : ∀ a b c, resDescLe a b = true → resDescLe b c = true →
    resDescLe a c = true := by
  intro a b c hab hbc
  simp only [resDescLe, decide_eq_true_eq] at *
  exact le_trans hbc hab

theorem sortByRel_resDesc_sorted (l : List Result) :
    (sortByRel resDescLe l).Pairwise (fun a b => b.similarity ≤ a.similarity) := by
  have h := sortByRel_sorted resDescLe resDescLe_total resDescLe_trans l
  exact h.imp (fun hx => by simpa [resDescLe, decide_eq_true_eq] using hx)

theorem lookupRes_eq_none {m : List (String × Result)} {k : String}
    (h : lookupRes m k = none) : ∀ p ∈ m, p.1 ≠ k := by
  intro p hp
  cases hfind : m.find? (fun p => p.1 == k) with
  | some q =>
    rw [lookupRes, hfind] at h
    simp at h
  | none =>
    have := List.find?_eq_none.mp hfind p hp
    simpa using this

theorem lookupRes_mem {m : List (String × Result)} {k : String} {v : Result}
    (h : lookupRes m k = some v) : (k, v) ∈ m := by
  cases hfind : m.find? (fun p => p.1 == k) with
  | none =>
    rw [lookupRes, hfind] at h
    simp at h
  | some q =>
    rw [lookupRes, hfind] at h
    have hv : q.2 = v := by simpa using h
    have hmem := List.mem_of_find?_eq_some hfind
    have hpred := List.find?_some hfind
    have hk : q.1 = k := by simpa using hpred
    have hqe : q = (k, v) := by
      cases q
      simp_all
    rw [← hqe]
    exact hmem

/-- In an association list with pairwise-distinct keys, an entry is
determined by its key. -/
theorem nodup_key_eq {m : List (String × Result)}
    (hnd : (m.map (fun p => p.1)).Nodup) {p q : String × Result}
    (hp : p ∈ m) (hq : q ∈ m) (hk : p.1 = q.1) : p = q :=
  List.inj_on_of_nodup_map hnd hp hq hk

theorem upsertMax_inv {processed : List Result} {m : List (String × Result)}
    (h : MergeInv processed m) (r : Result) :
    MergeInv (processed ++ [r]) (upsertMax m r) := by
  obtain ⟨hnd, hid, hmem, hmax, hcov⟩ := h
  have hmemP : ∀ x ∈ processed, x ∈ processed ++ [r] :=
    fun x hx => List.mem_append_left _ hx
  have hrP : r ∈ processed ++ [r] :=
    List.mem_append_right _ (List.mem_singleton_self r)
  have hsplitP : ∀ x ∈ processed ++ [r], x ∈ processed ∨ x = r := by
    intro x hx
    rcases List.mem_append.mp hx with hx | hx
    · exact Or.inl hx
    · exact Or.inr (List.mem_singleton.mp hx)
  cases hlk : lookupRes m r.document.ID with
  | none =>
    have hknot : ∀ p ∈ m, p.1 ≠ r.document.ID := lookupRes_eq_none hlk
    have hup : upsertMax m r = m ++ [(r.document.ID, r)] := by
      simp only [upsertMax, hlk]
    refine ⟨?_, ?_, ?_, ?_, ?_⟩
    · rw [hup, List.map_append]
      rw [List.nodup_append]
      refine ⟨hnd, by simp, ?_⟩
      intro k hk hk'
      simp only [List.map_cons, List.map_nil, List.mem_singleton] at hk'
      rcases List.mem_map.mp hk with ⟨p, hp, hpk⟩
      exact hknot p hp (hpk.trans hk')
    · intro p hp
      rw [hup] at hp
      rcases List.mem_append.mp hp with hp | hp
      · exact hid p hp
      · rw [List.mem_singleton.mp hp]
    · intro p hp
      rw [hup] at hp
      rcases List.mem_append.mp hp with hp | hp
      · exact hmemP _ (hmem p hp)
      · rw [List.mem_singleton.mp hp]
        exact hrP
    · intro p hp r' hr' hrid
      rw [hup] at hp
      rcases hsplitP r' hr' with hr'' | hr''
      · rcases List.mem_append.mp hp with hp | hp
        · exact hmax p hp r' hr'' hrid
        · exfalso
          have hpe := List.mem_singleton.mp hp
          rcases hcov r' hr'' with ⟨q, hq, hqk⟩
          apply hknot q hq
          rw [hqk, hrid, hpe]
      · rcases List.mem_append.mp hp with hp | hp
        · exfalso
          apply hknot p hp
          rw [← hrid, hr'']
        · have hpe := List.mem_singleton.mp hp
          rw [hpe, hr'']
    · intro r' hr'
      rcases hsplitP r' hr' with hr'' | hr''
      · rcases hcov r' hr'' with ⟨q, hq, hqk⟩
        exact ⟨q, by rw [hup]; exact List.mem_append_left _ hq, hqk⟩
      · refine ⟨(r.document.ID, r),
          by rw [hup]; exact List.mem_append_right _ (List.mem_singleton_self _), ?_⟩
        rw [hr'']
  | some ex =>
    have hexmem : (r.document.ID, ex) ∈ m := lookupRes_mem hlk
    by_cases hlt : ex.similarity < r.similarity
    · have hup : upsertMax m r =
          m.map (fun p => if p.1 == r.document.ID then (p.1, r) else p) := by
        simp only [upsertMax, hlk, if_pos hlt]
      have hfst : ∀ p : String × Result,
          ((if p.1 == r.document.ID then (p.1, r) else p) : String × Result).1 = p.1 := by
        intro p
        by_cases hb : (p.1 == r.document.ID) = true
        · rw [if_pos hb]
        · rw [if_neg hb]
      have hkeys : (upsertMax m r).map (fun p => p.1) = m.map (fun p => p.1) := by
        rw [hup, List.map_map]
        exact List.map_congr_left (fun p _ => hfst p)
      have hshape : ∀ p ∈ upsertMax m r, ∃ q, q ∈ m ∧ p.1 = q.1 ∧
          ((q.1 = r.document.ID ∧ p.2 = r) ∨ (q.1 ≠ r.document.ID ∧ p.2 = q.2)) := by
        intro p hp
        rw [hup] at hp
        rcases List.mem_map.mp hp with ⟨q, hq, hpq⟩
        by_cases hb : (q.1 == r.document.ID) = true
        · rw [if_pos hb] at hpq
          refine ⟨q, hq, ?_, Or.inl ⟨by simpa using hb, ?_⟩⟩
          · rw [← hpq]
          · rw [← hpq]
        · rw [if_neg hb] at hpq
          refine ⟨q, hq, ?_, Or.inr ⟨by simpa using hb, ?_⟩⟩
          · rw [← hpq]
          · rw [← hpq]
      have hin : ∀ q ∈ m,
          (if q.1 == r.document.ID then (q.1, r) else q) ∈ upsertMax m r := by
        intro q hq
        rw [hup]
        exact List.mem_map_of_mem _ hq
      refine ⟨?_, ?_, ?_, ?_, ?_⟩
      · rw [hkeys]
        exact hnd
      · intro p hp
        rcases hshape p hp with ⟨q, hq, hk, ⟨hqr, hv⟩ | ⟨hqr, hv⟩⟩
        · rw [hv, hk, hqr]
        · rw [hv, hk]
          exact hid q hq
      · intro p hp
        rcases hshape p hp with ⟨q, hq, hk, ⟨hqr, hv⟩ | ⟨hqr, hv⟩⟩
        · rw [hv]
          exact hrP
        · rw [hv]
          exact hmemP _ (hmem q hq)
      · intro p hp r' hr' hrid
        rcases hshape p hp with ⟨q, hq, hk, ⟨hqr, hv⟩ | ⟨hqr, hv⟩⟩
        · rcases hsplitP r' hr' with hr'' | hr''
          · have hle : r'.similarity ≤ ex.similarity :=
              hmax (r.document.ID, ex) hexmem r' hr'' (by rw [hrid, hk, hqr])
            rw [hv]
            exact le_of_lt (lt_of_le_of_lt hle hlt)
          · rw [hv, hr'']
        · rcases hsplitP r' hr' with hr'' | hr''
          · rw [hv]
            exact hmax q hq r' hr'' (by rw [hrid, hk])
          · exfalso
            apply hqr
            rw [← hk, ← hrid, hr'']
      · intro r' hr'
        rcases hsplitP r' hr' with hr'' | hr''
        · rcases hcov r' hr'' with ⟨q, hq, hqk⟩
          refine ⟨(if q.1 == r.document.ID then (q.1, r) else q), hin q hq, ?_⟩
          rw [hfst q, hqk]
        · refine ⟨(if (r.document.ID, ex).1 == r.document.ID
              then ((r.document.ID, ex).1, r) else (r.document.ID, ex)),
            hin _ hexmem, ?_⟩
          rw [hfst _, hr'']
    · have hup : upsertMax m r = m := by
        simp only [upsertMax, hlk, if_neg hlt]
      rw [hup]
      refine ⟨hnd, hid, ?_, ?_, ?_⟩
      · intro p hp
        exact hmemP _ (hmem p hp)
      · intro p hp r' hr' hrid
        rcases hsplitP r' hr' with hr'' | hr''
        · exact hmax p hp r' hr'' hrid
        · have hpe : p = (r.document.ID, ex) := by
            apply nodup_key_eq hnd hp hexmem
            rw [← hrid, hr'']
          rw [hpe, hr'']
          exact le_of_not_lt hlt
      · intro r' hr'
        rcases hsplitP r' hr' with hr'' | hr''
        · exact hcov r' hr''
        · exact ⟨(r.document.ID, ex), hexmem, by rw [hr'']⟩

theorem mergeResults_inv_aux (l : List Result) :
    ∀ processed m, MergeInv processed m →
      MergeInv (processed ++ l) (l.foldl upsertMax m) := by
  induction l with
  | nil =>
    intro processed m h
    simpa using h
  | cons r l ih =>
    intro processed m h
    have hstep := upsertMax_inv h r
    have := ih (processed ++ [r]) (upsertMax m r) hstep
    simpa using this

theorem mergeResults_inv (l : List Result) : MergeInv l (mergeResults l) := by
  have h0 : MergeInv [] ([] : List (String × Result)) := by
    refine ⟨by simp, by simp, by simp, by simp, by simp⟩
  have := mergeResults_inv_aux l [] [] h0
  simpa [mergeResults] using this

theorem isErrE_eq_not_isOkE {ε α : Type} (o : Except ε α) :
    isErrE o = !(isOkE o) := by
  cases o <;> rfl

/-- C9 — called with an empty query list, the failed-query count (zero)
equals the query count (zero), so the call returns the all-queries-failed
error rather than an empty result list. -/
theorem forQueries_empty_all_failed (search : String → Except VErr (List Result))
    (topN : Nat) :
    ((([] : List String).map search).filter (fun o => isErrE o)).length =
      ([] : List String).length ∧
    GetTopNSimilarDocumentsForQueries search [] topN = .error .allQueriesFailed :=
  ⟨rfl, rfl⟩

/-- C5 — when at least one query succeeds, the call returns a list in
which document IDs are pairwise distinct, every entry is one of the
surviving per-query results and carries the highest similarity seen for
its document across all surviving queries, sorted by descending
similarity and truncated to at most topN entries. -/
theorem forQueries_merge (search : String → Except VErr (List Result))
    (queries : List String) (topN : Nat)
    (hsucc : ∃ q ∈ queries, isOkE (search q) = true) :
    ∃ out, GetTopNSimilarDocumentsForQueries search queries topN = .ok out ∧
      (out.map (fun r => r.document.ID)).Nodup ∧
      (∀ r ∈ out, r ∈ collectResults (queries.map search) ∧
        ∀ r' ∈ collectResults (queries.map search),
          r'.document.ID = r.document.ID → r'.similarity ≤ r.similarity) ∧
      out.Pairwise (fun a b => b.similarity ≤ a.similarity) ∧
      out.length ≤ topN := by
  rcases hsucc with ⟨q0, hq0, hok0⟩
  have hne : ((queries.map search).filter (fun o => isErrE o)).length ≠
      queries.length := by
    intro hall
    have hall' : List.countP (fun o => isErrE o) (queries.map search) =
        (queries.map search).length := by
      rw [List.countP_eq_length_filter, hall, List.length_map]
    have hfa := List.countP_eq_length.mp hall'
    have hmem : search q0 ∈ queries.map search := List.mem_map_of_mem search hq0
    have hbad := hfa (search q0) hmem
    rw [isErrE_eq_not_isOkE, hok0] at hbad
    simp at hbad
  have hEq : GetTopNSimilarDocumentsForQueries search queries topN =
      .ok (if (sortByRel resDescLe
            ((mergeResults (collectResults (queries.map search))).map
              (fun p => p.2))).length > topN
          then (sortByRel resDescLe
            ((mergeResults (collectResults (queries.map search))).map
              (fun p => p.2))).take topN
          else sortByRel resDescLe
            ((mergeResults (collectResults (queries.map search))).map
              (fun p => p.2))) := by
    simp only [GetTopNSimilarDocumentsForQueries, hne, if_false]
  obtain ⟨hnd, hid, hmem, hmax, _⟩ :=
    mergeResults_inv (collectResults (queries.map search))
  have hvalsnd : (((mergeResults (collectResults (queries.map search))).map
      (fun p => p.2)).map (fun r => r.document.ID)).Nodup := by
    rw [List.map_map]
    have hcongr : (mergeResults (collectResults (queries.map search))).map
        ((fun r => r.document.ID) ∘ (fun p => p.2)) =
        (mergeResults (collectResults (queries.map search))).map (fun p => p.1) :=
      List.map_congr_left (fun p hp => hid p hp)
    rw [hcongr]
    exact hnd
  have hsortnd : ((sortByRel resDescLe
      ((mergeResults (collectResults (queries.map search))).map
        (fun p => p.2))).map (fun r => r.document.ID)).Nodup := by
    have hperm := (sortByRel_perm resDescLe
      ((mergeResults (collectResults (queries.map search))).map (fun p => p.2))).map
      (fun r => r.document.ID)
    exact hperm.nodup_iff.mpr hvalsnd
  have hsortmem : ∀ r ∈ sortByRel resDescLe
      ((mergeResults (collectResults (queries.map search))).map (fun p => p.2)),
      r ∈ collectResults (queries.map search) ∧
      ∀ r' ∈ collectResults (queries.map search),
        r'.document.ID = r.document.ID → r'.similarity ≤ r.similarity := by
    intro r hr
    have hr' : r ∈ (mergeResults (collectResults (queries.map search))).map
        (fun p => p.2) := (sortByRel_perm resDescLe _).mem_iff.mp hr
    rcases List.mem_map.mp hr' with ⟨p, hp, hpv⟩
    subst hpv
    refine ⟨hmem p hp, ?_⟩
    intro r' hr'' hrid
    exact hmax p hp r' hr'' (by rw [hrid, hid p hp])
  refine ⟨_, hEq, ?_, ?_, ?_, ?_⟩
  · by_cases hgt : (sortByRel resDescLe
        ((mergeResults (collectResults (queries.map search))).map
          (fun p => p.2))).length > topN
    · rw [if_pos hgt]
      exact List.Nodup.sublist
        ((List.take_sublist topN _).map (fun (r : Result) => r.document.ID)) hsortnd
    · rw [if_neg hgt]
      exact hsortnd
  · intro r hr
    by_cases hgt : (sortByRel resDescLe
        ((mergeResults (collectResults (queries.map search))).map
          (fun p => p.2))).length > topN
    · rw [if_pos hgt] at hr
      exact hsortmem r ((List.take_sublist _ _).mem hr)
    · rw [if_neg hgt] at hr
      exact hsortmem r hr
  · by_cases hgt : (sortByRel resDescLe
        ((mergeResults (collectResults (queries.map search))).map
          (fun p => p.2))).length > topN
    · rw [if_pos hgt]
      exact (sortByRel_resDesc_sorted _).sublist (List.take_sublist _ _)
    · rw [if_neg hgt]
      exact sortByRel_resDesc_sorted _
  · by_cases hgt : (sortByRel resDescLe
        ((mergeResults (collectResults (queries.map search))).map
          (fun p => p.2))).length > topN
    · rw [if_pos hgt, List.length_take]
      omega
    · rw [if_neg hgt]
      omega

/-- C5 witness: the merge theorem applied to a concrete query list with
a successful query. -/
theorem forQueries_merge_witness :
    (∃ q ∈ ["q1", "q2"], isOkE (egSearch q) = true) ∧
    ∃ out, GetTopNSimilarDocumentsForQueries egSearch ["q1", "q2"] 5 = .ok out ∧
      (out.map (fun r => r.document.ID)).Nodup ∧
      (∀ r ∈ out, r ∈ collectResults (["q1", "q2"].map egSearch) ∧
        ∀ r' ∈ collectResults (["q1", "q2"].map egSearch),
          r'.document.ID = r.document.ID → r'.similarity ≤ r.similarity) ∧
      out.Pairwise (fun a b => b.similarity ≤ a.similarity) ∧
      out.length ≤ 5 := by
  have hs : ∃ q ∈ ["q1", "q2"], isOkE (egSearch q) = true :=
    ⟨"q1", by simp, rfl⟩
  exact ⟨hs, forQueries_merge egSearch ["q1", "q2"] 5 hs⟩

theorem strAppendAssoc (a b c : String) : (a ++ b) ++ c = a ++ (b ++ c) := by
  rcases a with ⟨d1⟩
  rcases b with ⟨d2⟩
  rcases c with ⟨d3⟩
  show String.mk ((d1 ++ d2) ++ d3) = String.mk (d1 ++ (d2 ++ d3))
  rw [List.append_assoc]

theorem strAppendEmpty (a : String) : a ++ "" = a := by
  rcases a with ⟨d⟩
  show String.mk (d ++ []) = String.mk d
  rw [List.append_nil]

theorem contentFold_eq_concat (q : Nat → Bool) (l : List (Nat × Segment)) :
    ∀ acc, contentFold q l acc =
      acc ++ strConcat ((l.filter (fun p => q p.1)).map
        (fun p => (if p.1 > 0 then "\n" else "") ++ p.2.Text)) := by
  induction l with
  | nil =>
    intro acc
    simp [contentFold, strConcat, strAppendEmpty]
  | cons p l ih =>
    intro acc
    by_cases hq : q p.1
    · simp only [contentFold, List.foldl_cons, if_pos hq]
      rw [show (List.foldl _ _ l : String) = contentFold q l
          (acc ++ (if p.1 > 0 then "\n" else "") ++ p.2.Text) from rfl, ih]
      rw [List.filter_cons_of_pos (by simpa using hq), List.map_cons]
      show _ = acc ++ (((if p.1 > 0 then "\n" else "") ++ p.2.Text) ++ _)
      rw [← strAppendAssoc, ← strAppendAssoc]
      rfl
    · simp only [contentFold, List.foldl_cons, if_neg hq]
      rw [show (List.foldl _ _ l : String) = contentFold q l acc from rfl, ih]
      rw [List.filter_cons_of_neg (by simpa using hq)]

theorem contentFold_congr (q1 q2 : Nat → Bool) (h : ∀ i, q1 i = q2 i)
    (l : List (Nat × Segment)) : ∀ acc, contentFold q1 l acc = contentFold q2 l acc := by
  induction l with
  | nil =>
    intro acc
    rfl
  | cons p l ih =>
    intro acc
    simp only [contentFold, List.foldl_cons, h p.1]
    exact ih _

theorem resultMatches_perm {results results' : List Result}
    (h : results.Perm results') (docID : String) (i : Nat) :
    resultMatches results docID i = resultMatches results' docID i := by
  simp only [resultMatches]
  rw [Bool.eq_iff_iff, List.any_eq_true, List.any_eq_true]
  constructor
  · rintro ⟨x, hx, hpx⟩
    exact ⟨x, h.mem_iff.mp hx, hpx⟩
  · rintro ⟨x, hx, hpx⟩
    exact ⟨x, h.mem_iff.mpr hx, hpx⟩

/-- C3 — the concatenated text for each document lists the matched
segment texts in the order the segments are stored in the document
(filtering the indexed segment list keeps its original order), and it is
invariant both under permuting the ranked results (so arrival order is
irrelevant) and under arbitrary changes to the similarity scores (so
similarity order is irrelevant). -/
theorem aggregate_content_original_order :
    (∀ results docID segs, docContent results docID segs =
      strConcat ((segs.enum.filter
          (fun p => resultMatches results docID p.1)).map
        (fun p => (if p.1 > 0 then "\n" else "") ++ p.2.Text))) ∧
    (∀ results results' docID segs, results.Perm results' →
      docContent results docID segs = docContent results' docID segs) ∧
    (∀ results docID segs (g : Result → ℚ),
      docContent (results.map (fun r => { r with similarity := g r })) docID segs =
        docContent results docID segs) := by
  refine ⟨?_, ?_, ?_⟩
  · intro results docID segs
    have h := contentFold_eq_concat (fun i => resultMatches results docID i)
      segs.enum ""
    rw [docContent, h]
    show "" ++ _ = _
    rcases hs : strConcat _ with ⟨d⟩
    show String.mk ([] ++ d) = String.mk d
    rw [List.nil_append]
  · intro results results' docID segs hperm
    exact contentFold_congr _ _ (fun i => resultMatches_perm hperm docID i)
      segs.enum ""
  · intro results docID segs g
    refine contentFold_congr _ _ (fun i => ?_) segs.enum ""
    simp only [resultMatches, List.any_map]
    congr 1

/-- C3 witness: two results arriving in reverse segment order (and in
descending-similarity order t1 before t0) still produce the content in
stored order; permuting the arrival order changes nothing. -/
theorem aggregate_content_original_order_witness :
    ([({ document := egDocC3, segIdx := 1, similarity := 9 } : Result),
      { document := egDocC3, segIdx := 0, similarity := 7 }].Perm
     [({ document := egDocC3, segIdx := 0, similarity := 7 } : Result),
      { document := egDocC3, segIdx := 1, similarity := 9 }]) ∧
    docContent [{ document := egDocC3, segIdx := 1, similarity := 9 },
        { document := egDocC3, segIdx := 0, similarity := 7 }] "d"
        egDocC3.Segments =
      docContent [{ document := egDocC3, segIdx := 0, similarity := 7 },
        { document := egDocC3, segIdx := 1, similarity := 9 }] "d"
        egDocC3.Segments ∧
    docContent [{ document := egDocC3, segIdx := 1, similarity := 9 },
        { document := egDocC3, segIdx := 0, similarity := 7 }] "d"
        egDocC3.Segments = "t0" ++ "\n" ++ "t1" :=
  ⟨List.Perm.swap _ _ _,
    aggregate_content_original_order.2.1 _ _ "d" egDocC3.Segments
      (List.Perm.swap _ _ _),
    by decide⟩

end VectorLib
